import Mathlib

/-!
Verification of the extension-loading, capability-negotiation and
resource-broker subsystem of the Vortex plugin host
(src/util/ExtensionManager.ts), as a shallow embedding in Lean 4.

The embedding models, faithfully to the TypeScript source:
  - the ContextProxyHandler (call recorder): its get/set/has traps, the
    distinguished "optional" recording surface, the current-extension
    cursor, getCalls, invokeAdditions and unloadIncompatible;
  - the ExtensionManager registration driver initExtensions, with each
    extension's registration function modelled as a list of actions
    (proxy calls, optional calls, capability additions, and a possible
    thrown exception);
  - the lazy ModDB resource broker getModDB, as a sequential state
    transformer emitting an observable event trace;
  - the state-change watcher stateChangeHandler, with its per-path
    registry, single underlying subscription, last-value dedup and
    guarded callback fan-out.

Handlers and callbacks are modelled by opaque identifiers; invoking a
handler is modelled by emitting a trace entry.
-/

set_option linter.unusedVariables false

namespace Vortex

/-- Opaque argument values passed to capability calls. -/
abbrev Arg := String

/-- A recorded registration call (IInitCall in the source). -/
structure InitCall where
  extension : String
  extensionPath : String
  key : String
  arguments : List Arg
  optional : Bool
deriving DecidableEq, Repr

/-- A capability contributed by an extension (IApiAddition in the source);
the handler function is modelled by an opaque identifier. -/
structure ApiAddition where
  key : String
  callback : Nat
deriving DecidableEq, Repr

/-- State of the ContextProxyHandler: the keys actually present on the
wrapped context object (for the real manager this is just "api", plus
whatever the prototype chain contributes, kept abstract here), the ordered
call log mInitCalls, the collected additions mApiAdditions, and the
current-extension cursor. -/
structure HandlerState where
  contextKeys : List String
  initCalls : List InitCall
  apiAdditions : List ApiAddition
  currentExtension : String
  currentPath : String
deriving DecidableEq, Repr

/-- The keys of the dummy IExtensionContext object used by the source to
enumerate the statically supported APIs (ContextProxyHandler.staticAPIs). -/
def staticAPIs : List String :=
  ["registerMainPage", "registerDashlet", "registerDialog", "registerSettings",
   "registerAction", "registerFooter", "registerToDo", "registerModSource",
   "registerReducer", "registerPersistor", "registerSettingsHive",
   "registerTableAttribute", "registerTest", "registerArchiveType",
   "registerGame", "registerAttributeExtractor", "api", "once", "onceMain",
   "optional"]

/-- What the proxy get trap hands back for a key. -/
inductive GetResult
  | contextMember
  | optionalSurface
  | recorder
deriving DecidableEq, Repr

/-- The get trap of ContextProxyHandler: a key present on the wrapped
context is served from it unchanged; the key "optional" yields the
optional recording surface; any other key yields a recording closure. -/
def getTrap (s : HandlerState) (key : String) : GetResult :=
  if s.contextKeys.contains key then GetResult.contextMember
  else if key = "optional" then GetResult.optionalSurface
  else GetResult.recorder

/-- Invoking a key on the context proxy. Only when the get trap returned a
recording closure does a call get appended to the log, tagged with the
current extension and with optional set to false; a real context member or
the optional surface object records nothing when obtained this way. -/
def invokeOnProxy (s : HandlerState) (key : String) (args : List Arg) :
    HandlerState :=
  match getTrap s key with
  | GetResult.recorder =>
      { s with initCalls := s.initCalls ++
          [⟨s.currentExtension, s.currentPath, key, args, false⟩] }
  | _ => s

/-- Invoking a key on the mOptional sub-surface: every key records, with
optional set to true. -/
def invokeOptional (s : HandlerState) (key : String) (args : List Arg) :
    HandlerState :=
  { s with initCalls := s.initCalls ++
      [⟨s.currentExtension, s.currentPath, key, args, true⟩] }

/-- The set trap of ContextProxyHandler: every assignment is pushed onto
mApiAdditions unconditionally and reported as successful. -/
def setTrap (s : HandlerState) (key : String) (cb : Nat) : HandlerState :=
  { s with apiAdditions := s.apiAdditions ++ [⟨key, cb⟩] }

/-- ContextProxyHandler.setExtension: move the current-extension cursor. -/
def setExtension (s : HandlerState) (ext extPath : String) : HandlerState :=
  { s with currentExtension := ext, currentPath := extPath }

/-- The has trap of ContextProxyHandler: returns true for every key. -/
def hasTrap (key : String) : Bool :=
  true

/-- ContextProxyHandler.getCalls: the recorded calls to a given key, in
log order. -/
def getCalls (s : HandlerState) (name : String) : List InitCall :=
  s.initCalls.filter (fun c => c.key == name)

/-- An invocation of a handler, as an observable trace entry. -/
structure Invocation where
  callback : Nat
  args : List Arg
deriving DecidableEq, Repr

/-- ContextProxyHandler.invokeAdditions: for each addition in order, replay
every recorded call to its key with the recorded arguments plus the calling
extension's path appended. -/
def invokeAdditions (s : HandlerState) : List Invocation :=
  s.apiAdditions.foldl (fun acc a =>
    (getCalls s a.key).foldl (fun acc2 c =>
      acc2 ++ [⟨a.callback, c.arguments ++ [c.extensionPath]⟩]) acc) []

/-- The full capability set used by unloadIncompatible: the UI APIs passed
in, the static APIs, and the keys of all collected additions. -/
def fullAPI (s : HandlerState) (furtherAPIs : List String) : List String :=
  furtherAPIs ++ staticAPIs ++ s.apiAdditions.map (fun a => a.key)

/-- The incompatible-extension set computed by unloadIncompatible: every
extension owning a non-optional recorded call whose key is outside the full
capability set (listed with one entry per offending call; only membership
matters, mirroring the Set in the source). -/
def incompatibleExtensions (s : HandlerState) (furtherAPIs : List String) :
    List String :=
  (s.initCalls.filter (fun c =>
    !c.optional && !((fullAPI s furtherAPIs).contains c.key))).map
    (fun c => c.extension)

/-- ContextProxyHandler.unloadIncompatible: when any extension is
incompatible, drop every recorded call belonging to an incompatible
extension; otherwise leave the log untouched. -/
def unloadIncompatible (s : HandlerState) (furtherAPIs : List String) :
    HandlerState :=
  let incompat := incompatibleExtensions s furtherAPIs
  if incompat.isEmpty then s
  else { s with initCalls := s.initCalls.filter (fun c =>
    !(incompat.contains c.extension)) }

/-- Decision procedure for the incompatibility of one extension: it made at
least one non-optional call to a key outside the full capability set. -/
def extIncompatible (s : HandlerState) (furtherAPIs : List String)
    (e : String) : Bool :=
  s.initCalls.any (fun c =>
    c.extension == e && (!c.optional && !((fullAPI s furtherAPIs).contains c.key)))

/-- One step of an extension's registration function, as observed through
the context proxy: a plain capability call, a call through the optional
sub-surface, a capability addition (an assignment caught by the set trap),
or a thrown exception. -/
inductive RegAction
  | call (key : String) (args : List Arg)
  | optCall (key : String) (args : List Arg)
  | addApi (key : String) (cb : Nat)
  | throwErr
deriving DecidableEq, Repr

/-- A registered extension (IRegisteredExtension): name, source path, and
its registration function modelled as the sequence of proxy interactions
it performs. -/
structure Extension where
  name : String
  path : String
  program : List RegAction
deriving DecidableEq, Repr

/-- Run one extension's registration function against the proxy. A thrown
exception stops the remaining actions but keeps everything recorded so far
(initExtensions catches the exception, logs it, and moves on). -/
def runActions (s : HandlerState) : List RegAction → HandlerState
  | [] => s
  | RegAction.call k args :: rest => runActions (invokeOnProxy s k args) rest
  | RegAction.optCall k args :: rest => runActions (invokeOptional s k args) rest
  | RegAction.addApi k cb :: rest => runActions (setTrap s k cb) rest
  | RegAction.throwErr :: _ => s

/-- The fresh ContextProxyHandler built by initExtensions over a context
with the given keys. -/
def initialState (contextKeys : List String) : HandlerState :=
  ⟨contextKeys, [], [], "", ""⟩

/-- One iteration of the phase-1 loop of initExtensions: set the
current-extension cursor, then run the registration function (whose body
is wrapped in try/catch by the source). -/
def regStep (s : HandlerState) (e : Extension) : HandlerState :=
  runActions (setExtension s e.name e.path) e.program

/-- Phase 1 of ExtensionManager.initExtensions: for each extension in
order, set the cursor and run its registration function, accumulating into
one shared handler state. -/
def registerAll (exts : List Extension) (contextKeys : List String) :
    HandlerState :=
  exts.foldl regStep (initialState contextKeys)

/-- ExtensionManager.initExtensions: run every registration pass, then run
unloadIncompatible exactly once with the registered UI APIs. -/
def initExtensions (exts : List Extension) (uiAPIs contextKeys : List String) :
    HandlerState :=
  unloadIncompatible (registerAll exts contextKeys) uiAPIs

/-- State of the ModDB resource broker inside ExtensionManager: the live
instance (an opaque handle) if any, and the stored context (game id and
API key) it was built for. -/
structure BrokerState where
  modDB : Option Nat
  modDBGame : String
  modDBAPIKey : String
deriving DecidableEq, Repr

/-- Observable events of the broker: closing a live instance and
constructing a fresh one for a context. -/
inductive BrokerEvent
  | close (inst : Nat)
  | construct (inst : Nat) (game apiKey : String)
deriving DecidableEq, Repr

/-- Result of one getModDB request: the updated broker state, the ordered
event trace, and the instance handed to the caller. -/
structure BrokerResult where
  state : BrokerState
  trace : List BrokerEvent
  instResult : Nat
deriving DecidableEq, Repr

/-- ExtensionManager.getModDB as a sequential state transformer. First
step: if no instance exists or the stored context differs from the
requested one, close any existing instance and record it as absent.
Second step: if no instance exists now, construct one for the requested
context (the fresh handle models the new ModDB) and record the requested
context as current; otherwise hand back the existing instance. -/
def getModDB (s : BrokerState) (currentGame currentKey : String)
    (fresh : Nat) : BrokerResult :=
  let step1 : BrokerState × List BrokerEvent :=
    if s.modDB = none ∨ currentGame ≠ s.modDBGame ∨ currentKey ≠ s.modDBAPIKey
    then
      match s.modDB with
      | some inst => ({ s with modDB := none }, [BrokerEvent.close inst])
      | none => (s, [])
    else (s, [])
  match step1.1.modDB with
  | none =>
      ⟨⟨some fresh, currentGame, currentKey⟩,
       step1.2 ++ [BrokerEvent.construct fresh currentGame currentKey], fresh⟩
  | some inst => ⟨step1.1, step1.2, inst⟩

/-- A state-change callback, modelled by an opaque identifier plus whether
invoking it throws. -/
structure WatchCallback where
  id : Nat
  throws : Bool
deriving DecidableEq, Repr

/-- Lookup in a string-keyed association list (models a JS object used as
a map). -/
def lookupA {α : Type} : List (String × α) → String → Option α
  | [], _ => none
  | (k2, v) :: rest, k => if k2 = k then some v else lookupA rest k

/-- Update (or insert) in a string-keyed association list. -/
def updateA {α : Type} : List (String × α) → String → α → List (String × α)
  | [], k, v => [(k, v)]
  | (k2, v2) :: rest, k, v =>
      if k2 = k then (k2, v) :: rest else (k2, v2) :: updateA rest k v

/-- State of the change watcher inside ExtensionManager: the mWatches
registry of callbacks per path key, the ordered list of underlying
redux-watcher subscriptions created so far, and each subscription closure's
lastValue variable (none models the initial undefined). -/
structure WatcherState where
  watches : List (String × List WatchCallback)
  subscriptions : List String
  lastValues : List (String × Option String)
deriving DecidableEq, Repr

/-- The registry key for a watched path: the path segments joined with a
dot. -/
def watchKey (watchPath : List String) : String :=
  String.intercalate "." watchPath

/-- ExtensionManager.stateChangeHandler: on the first watch of a path,
create the (empty) registry entry and exactly one underlying subscription
whose lastValue starts out undefined, then push the callback; on a later
watch of the same path, only push the callback. -/
def watch (w : WatcherState) (watchPath : List String) (cb : WatchCallback) :
    WatcherState :=
  let key := watchKey watchPath
  match lookupA w.watches key with
  | none =>
      { watches := updateA w.watches key [cb],
        subscriptions := w.subscriptions ++ [key],
        lastValues := updateA w.lastValues key none }
  | some cbs =>
      { w with watches := updateA w.watches key (cbs ++ [cb]) }

/-- Run the callbacks registered for a path, in order, each inside its own
try/catch: the first component lists every callback invoked, the second the
callbacks whose exception was caught and logged. A throwing callback never
prevents the remaining ones from running. -/
def runCallbacks : List WatchCallback → List Nat × List Nat
  | [] => ([], [])
  | c :: rest =>
      let r := runCallbacks rest
      (c.id :: r.1, if c.throws then c.id :: r.2 else r.2)

/-- Result of delivering one underlying change notification: the updated
watcher state, the callbacks invoked in order, and the callbacks whose
exceptions were logged. -/
structure NotifyResult where
  state : WatcherState
  invoked : List Nat
  errLogged : List Nat
deriving DecidableEq, Repr

/-- The subscription closure installed by stateChangeHandler for a path
key: if the notified value equals the lastValue observed for that path,
return without invoking anything; otherwise store the new value and run
every callback currently registered for the path, each guarded. -/
def notify (w : WatcherState) (key : String) (currentValue : Option String) :
    NotifyResult :=
  let lastValue : Option String :=
    match lookupA w.lastValues key with
    | some v => v
    | none => none
  if currentValue = lastValue then ⟨w, [], []⟩
  else
    let cbs : List WatchCallback :=
      match lookupA w.watches key with
      | some l => l
      | none => []
    let r := runCallbacks cbs
    ⟨{ w with lastValues := updateA w.lastValues key currentValue },
     r.1, r.2⟩

/-! ## Helper lemmas -/

lemma extIncompatible_iff (s : HandlerState) (f : List String) (e : String) :
    extIncompatible s f e = true ↔
      ∃ c ∈ s.initCalls, c.extension = e ∧ c.optional = false ∧
        (fullAPI s f).contains c.key = false := by
  unfold extIncompatible
  rw [List.any_eq_true]
  constructor
  · rintro ⟨c, hc, hp⟩
    simp only [Bool.and_eq_true, beq_iff_eq, Bool.not_eq_true'] at hp
    exact ⟨c, hc, hp.1, hp.2.1, hp.2.2⟩
  · rintro ⟨c, hc, h1, h2, h3⟩
    refine ⟨c, hc, ?_⟩
    simp only [Bool.and_eq_true, beq_iff_eq, Bool.not_eq_true']
    exact ⟨h1, h2, h3⟩

lemma mem_incompatibleExtensions (s : HandlerState) (f : List String)
    (e : String) :
    e ∈ incompatibleExtensions s f ↔ extIncompatible s f e = true := by
  unfold incompatibleExtensions
  rw [extIncompatible_iff]
  constructor
  · intro h
    rcases List.mem_map.mp h with ⟨c, hc, hce⟩
    rcases List.mem_filter.mp hc with ⟨hmem, hp⟩
    simp only [Bool.and_eq_true, Bool.not_eq_true'] at hp
    exact ⟨c, hmem, hce, hp.1, hp.2⟩
  · rintro ⟨c, hmem, hce, h2, h3⟩
    refine List.mem_map.mpr ⟨c, List.mem_filter.mpr ⟨hmem, ?_⟩, hce⟩
    simp only [Bool.and_eq_true, Bool.not_eq_true']
    exact ⟨h2, h3⟩

lemma contains_incompatibleExtensions (s : HandlerState) (f : List String)
    (e : String) :
    (incompatibleExtensions s f).contains e = extIncompatible s f e := by
  cases h : extIncompatible s f e
  · have : e ∉ incompatibleExtensions s f := by
      rw [mem_incompatibleExtensions, h]
      exact fun hh => Bool.false_ne_true hh
    cases hc : (incompatibleExtensions s f).contains e
    · rfl
    · exact absurd (List.elem_iff.mp hc) this
  · exact List.elem_eq_true_of_mem
      ((mem_incompatibleExtensions s f e).mpr h)

lemma unloadIncompatible_initCalls (s : HandlerState) (f : List String) :
    (unloadIncompatible s f).initCalls
      = s.initCalls.filter (fun c => !(extIncompatible s f c.extension)) := by
  have hpt : ∀ c ∈ s.initCalls,
      (!((incompatibleExtensions s f).contains c.extension))
        = (!(extIncompatible s f c.extension)) := by
    intro c _
    rw [contains_incompatibleExtensions]
  unfold unloadIncompatible
  by_cases h : (incompatibleExtensions s f).isEmpty
  · simp only [h, if_true]
    have hnil : incompatibleExtensions s f = [] := List.isEmpty_iff.mp h
    have : ∀ c ∈ s.initCalls, (!(extIncompatible s f c.extension)) = true := by
      intro c hc
      rw [← contains_incompatibleExtensions, hnil]
      rfl
    exact (List.filter_eq_self.mpr this).symm
  · simp only [h, if_false]
    exact List.filter_congr hpt

lemma invokeOnProxy_apiAdditions (s : HandlerState) (k : String)
    (args : List Arg) :
    (invokeOnProxy s k args).apiAdditions = s.apiAdditions := by
  unfold invokeOnProxy
  cases getTrap s k <;> rfl

lemma runActions_additions_mono (prog : List RegAction) (s : HandlerState)
    (x : ApiAddition) (h : x ∈ s.apiAdditions) :
    x ∈ (runActions s prog).apiAdditions := by
  induction prog generalizing s with
  | nil => exact h
  | cons a rest ih =>
    cases a with
    | call k args =>
      exact ih _ (by rw [invokeOnProxy_apiAdditions]; exact h)
    | optCall k args => exact ih _ h
    | addApi k cb =>
      exact ih _ (List.mem_append_left _ h)
    | throwErr => exact h

lemma runActions_addApi_mem (k : String) (cb : Nat) :
    ∀ (prog : List RegAction), RegAction.throwErr ∉ prog →
      RegAction.addApi k cb ∈ prog → ∀ (s : HandlerState),
        (⟨k, cb⟩ : ApiAddition) ∈ (runActions s prog).apiAdditions := by
  intro prog
  induction prog with
  | nil =>
    intro _ hmem
    exact absurd hmem (List.not_mem_nil _)
  | cons a rest ih =>
    intro hth hmem s
    have hth' : RegAction.throwErr ∉ rest := fun hh =>
      hth (List.mem_cons_of_mem _ hh)
    rcases List.mem_cons.mp hmem with heq | hmem'
    · subst heq
      exact runActions_additions_mono rest _ _
        (List.mem_append_right _ (List.mem_singleton.mpr rfl))
    · cases a with
      | call k2 args => exact ih hth' hmem' _
      | optCall k2 args => exact ih hth' hmem' _
      | addApi k2 cb2 => exact ih hth' hmem' _
      | throwErr => exact absurd (List.mem_cons_self _ _) hth

lemma foldl_regStep_additions_mono (exts : List Extension)
    (s : HandlerState) (x : ApiAddition) (h : x ∈ s.apiAdditions) :
    x ∈ (exts.foldl regStep s).apiAdditions := by
  induction exts generalizing s with
  | nil => exact h
  | cons e rest ih =>
    exact ih _ (runActions_additions_mono _ _ _ h)

lemma foldl_regStep_addApi (a : Extension) (k : String) (cb : Nat)
    (hth : RegAction.throwErr ∉ a.program)
    (hadd : RegAction.addApi k cb ∈ a.program) :
    ∀ (exts : List Extension), a ∈ exts → ∀ (s : HandlerState),
      (⟨k, cb⟩ : ApiAddition) ∈ (exts.foldl regStep s).apiAdditions := by
  intro exts
  induction exts with
  | nil =>
    intro ha
    exact absurd ha (List.not_mem_nil _)
  | cons e rest ih =>
    intro ha s
    rcases List.mem_cons.mp ha with heq | ha'
    · subst heq
      exact foldl_regStep_additions_mono rest _ _
        (runActions_addApi_mem _ _ _ hth hadd _)
    · exact ih ha' _

lemma fullAPI_contains_of_addition (s : HandlerState) (f : List String)
    (k : String) (cb : Nat) (h : (⟨k, cb⟩ : ApiAddition) ∈ s.apiAdditions) :
    (fullAPI s f).contains k = true := by
  apply List.elem_eq_true_of_mem
  unfold fullAPI
  exact List.mem_append_right _ (List.mem_map.mpr ⟨⟨k, cb⟩, h, rfl⟩)

lemma runActions_throw (p1 p2 : List RegAction) (s : HandlerState)
    (hth : RegAction.throwErr ∉ p1) :
    runActions s (p1 ++ RegAction.throwErr :: p2) = runActions s p1 := by
  induction p1 generalizing s with
  | nil => rfl
  | cons a rest ih =>
    have hth' : RegAction.throwErr ∉ rest := fun hh =>
      hth (List.mem_cons_of_mem _ hh)
    cases a with
    | call k args => exact ih _ hth'
    | optCall k args => exact ih _ hth'
    | addApi k cb => exact ih _ hth'
    | throwErr => exact absurd (List.mem_cons_self _ _) hth

lemma foldl_append_singleton {α β : Type} (h : α → β) :
    ∀ (l : List α) (acc : List β),
      l.foldl (fun a c => a ++ [h c]) acc = acc ++ l.map h := by
  intro l
  induction l with
  | nil => intro acc; simp
  | cons c rest ih =>
    intro acc
    rw [List.foldl_cons, ih, List.map_cons, List.append_assoc]
    rfl

lemma foldl_append_flatMap {α β : Type} (G : α → List β) :
    ∀ (l : List α) (acc : List β),
      l.foldl (fun acc a => acc ++ G a) acc = acc ++ l.flatMap G := by
  intro l
  induction l with
  | nil => intro acc; simp
  | cons a rest ih =>
    intro acc
    rw [List.foldl_cons, ih, List.flatMap_cons, List.append_assoc]

lemma invokeAdditions_eq (s : HandlerState) :
    invokeAdditions s = s.apiAdditions.flatMap (fun a =>
      (getCalls s a.key).map (fun c =>
        (⟨a.callback, c.arguments ++ [c.extensionPath]⟩ : Invocation))) := by
  unfold invokeAdditions
  have hstep : (fun (acc : List Invocation) (a : ApiAddition) =>
      (getCalls s a.key).foldl (fun acc2 c =>
        acc2 ++ [(⟨a.callback, c.arguments ++ [c.extensionPath]⟩ : Invocation)])
        acc)
      = (fun acc a => acc ++ (getCalls s a.key).map (fun c =>
          (⟨a.callback, c.arguments ++ [c.extensionPath]⟩ : Invocation))) := by
    funext acc a
    exact foldl_append_singleton _ _ _
  rw [hstep, foldl_append_flatMap, List.nil_append]

lemma lookupA_updateA_self {α : Type} (l : List (String × α)) (k : String)
    (v : α) : lookupA (updateA l k v) k = some v := by
  induction l with
  | nil => simp [updateA, lookupA]
  | cons p rest ih =>
    by_cases h : p.1 = k
    · simp [updateA, lookupA, h]
    · simp [updateA, lookupA, h, ih]

/-! ## Claim theorems -/

/-- C1. All-or-nothing compatibility filtering: an extension is in the
incompatible set exactly when it has at least one recorded call with
optional = false whose capability is outside the full capability set
(UI APIs passed in, static APIs, and extension-contributed additions);
pruning removes precisely the recorded calls of such extensions, so every
call of an incompatible extension is dropped (valid-capability calls
included) while the calls of every other extension are kept unchanged and
in their original order. -/
theorem prune_all_or_nothing (s : HandlerState) (f : List String) :
    (∀ e : String, extIncompatible s f e = true ↔
      ∃ c ∈ s.initCalls, c.extension = e ∧ c.optional = false ∧
        (fullAPI s f).contains c.key = false) ∧
    (unloadIncompatible s f).initCalls
      = s.initCalls.filter (fun c => !(extIncompatible s f c.extension)) :=
  ⟨fun e => extIncompatible_iff s f e, unloadIncompatible_initCalls s f⟩

/-- C3. Calls made through the optional sub-surface are recorded with
optional = true, and membership in the incompatible set requires a
non-optional call to an unsupported capability, so an optional call to an
absent capability never disqualifies its extension. -/
theorem optional_calls_never_disqualify (s : HandlerState) (key : String)
    (args : List Arg) (f : List String) (e : String) :
    (invokeOptional s key args).initCalls
      = s.initCalls ++ [⟨s.currentExtension, s.currentPath, key, args, true⟩] ∧
    ((incompatibleExtensions s f).contains e = true ↔
      ∃ c ∈ s.initCalls, c.extension = e ∧ c.optional = false ∧
        (fullAPI s f).contains c.key = false) := by
  constructor
  · rfl
  · rw [contains_incompatibleExtensions]
    exact extIncompatible_iff s f e

/-- Concrete handler state used to settle C4: the wrapped context carries
the key "api" (as in initExtensions), the log is empty, and the cursor
points at extension extA. -/
def c4state : HandlerState :=
  ⟨["api"], [], [], "extA", "pathA"⟩

/-- C4 counterexample. The claim says invoking any key on the recorder
proxy appends a log entry; but a key present on the wrapped context, such
as "api", is served from the context and records nothing, so the log stays
empty. -/
theorem recorder_context_key_not_recorded :
    (invokeOnProxy c4state "api" ["x"]).initCalls = [] ∧
    ¬((invokeOnProxy c4state "api" ["x"]).initCalls
        = c4state.initCalls ++
          [⟨c4state.currentExtension, c4state.currentPath, "api", ["x"], false⟩]) := by
  decide

/-- C4 amended. For every key that is not present on the wrapped context
and is not the distinguished key "optional", invoking the key on the proxy
appends exactly one log entry tagged with the current extension's name and
path, the invoked key, the arguments, and optional = false — regardless of
whether the key names a real capability. -/
theorem recorder_records_noncontext_keys (s : HandlerState) (key : String)
    (args : List Arg) (h1 : s.contextKeys.contains key = false)
    (h2 : key ≠ "optional") :
    (invokeOnProxy s key args).initCalls
      = s.initCalls ++
        [⟨s.currentExtension, s.currentPath, key, args, false⟩] := by
  have h1' : key ∉ s.contextKeys := by
    intro hm
    have hc : s.contextKeys.contains key = true := List.elem_eq_true_of_mem hm
    rw [h1] at hc
    exact Bool.false_ne_true hc
  unfold invokeOnProxy getTrap
  simp [h1', h2]

/-- C4 witness: a key that names no real capability is recorded all the
same, with the cursor identity and optional = false. -/
theorem recorder_records_noncontext_keys_witness :
    c4state.contextKeys.contains "registerFrobnix" = false ∧
    "registerFrobnix" ≠ "optional" ∧
    (invokeOnProxy c4state "registerFrobnix" ["a"]).initCalls
      = c4state.initCalls ++
        [⟨c4state.currentExtension, c4state.currentPath,
          "registerFrobnix", ["a"], false⟩] :=
  ⟨by decide, by decide,
   recorder_records_noncontext_keys c4state "registerFrobnix" ["a"]
     (by decide) (by decide)⟩

/-- Concrete handler state used to settle C5: one addition named widgetX
has already been collected. -/
def c5state : HandlerState :=
  ⟨["api"], [], [⟨"widgetX", 0⟩], "dup", "pd"⟩

/-- C5 counterexample. The claim says an addition whose name already exists
is rejected rather than stored; but the set trap stores the duplicate
unconditionally, both when the name duplicates a previously added
capability and when it duplicates a static capability. -/
theorem duplicate_addition_stored :
    (setTrap c5state "widgetX" 1).apiAdditions
      = [⟨"widgetX", 0⟩, ⟨"widgetX", 1⟩] ∧
    staticAPIs.contains "registerAction" = true ∧
    (setTrap c5state "registerAction" 2).apiAdditions
      = [⟨"widgetX", 0⟩, ⟨"registerAction", 2⟩] := by
  decide

/-- C5 amended. Adding a capability never fails and is never checked for
duplication: the set trap unconditionally appends the addition — even when
the name already exists in the static set or among previous additions — so
a duplicate is stored alongside the original, and at replay time each
stored addition (the duplicate included) replays the calls to its key. -/
theorem addition_always_appended (s : HandlerState) (k : String) (cb : Nat) :
    (setTrap s k cb).apiAdditions = s.apiAdditions ++ [⟨k, cb⟩] ∧
    invokeAdditions (setTrap s k cb)
      = invokeAdditions s ++ (getCalls s k).map (fun c =>
          (⟨cb, c.arguments ++ [c.extensionPath]⟩ : Invocation)) := by
  constructor
  · rfl
  · rw [invokeAdditions_eq, invokeAdditions_eq]
    simp only [setTrap, getCalls]
    rw [List.flatMap_append]
    simp

/-- C2. Two-pass filtering makes forward references safe: if extension a
(anywhere in the load order) contributes the capability k through a
registration pass that does not throw, and every non-optional call recorded
for extension name b is a call to k, then b is not marked incompatible and
every one of b's recorded calls survives filtering, because filtering runs
once after all registration passes and sees every collected addition. -/
theorem two_pass_forward_refs (exts : List Extension) (ck ui : List String)
    (a : Extension) (b k : String) (cb : Nat)
    (ha : a ∈ exts) (hth : RegAction.throwErr ∉ a.program)
    (hadd : RegAction.addApi k cb ∈ a.program)
    (hb : ∀ c ∈ (registerAll exts ck).initCalls,
      c.extension = b → c.optional = false → c.key = k) :
    extIncompatible (registerAll exts ck) ui b = false ∧
    ∀ c ∈ (registerAll exts ck).initCalls, c.extension = b →
      c ∈ (initExtensions exts ui ck).initCalls := by
  have hmem : (⟨k, cb⟩ : ApiAddition) ∈ (registerAll exts ck).apiAdditions :=
    foldl_regStep_addApi a k cb hth hadd exts ha _
  have hk : (fullAPI (registerAll exts ck) ui).contains k = true :=
    fullAPI_contains_of_addition _ _ _ _ hmem
  have hinc : extIncompatible (registerAll exts ck) ui b = false := by
    unfold extIncompatible
    rw [List.any_eq_false]
    intro c hc hp
    simp only [Bool.and_eq_true, beq_iff_eq, Bool.not_eq_true'] at hp
    obtain ⟨hce, hopt, hcontains⟩ := hp
    rw [hb c hc hce hopt, hk] at hcontains
    exact Bool.noConfusion hcontains
  refine ⟨hinc, ?_⟩
  intro c hc hcb
  unfold initExtensions
  rw [unloadIncompatible_initCalls]
  refine List.mem_filter.mpr ⟨hc, ?_⟩
  rw [hcb, hinc]
  rfl

/-- Extension used in the C2 witness: contributes registerWidget. -/
def c2adder : Extension :=
  ⟨"adder", "pa", [RegAction.addApi "registerWidget" 0]⟩

/-- Extension used in the C2 witness: calls registerWidget non-optionally,
and is loaded before the contributor. -/
def c2user : Extension :=
  ⟨"user", "pu", [RegAction.call "registerWidget" ["arg"]]⟩

/-- C2 witness: the user extension loads before the adder extension, yet
its forward reference to registerWidget is accepted and its call survives
filtering. -/
theorem two_pass_forward_refs_witness :
    c2adder ∈ [c2user, c2adder] ∧
    RegAction.throwErr ∉ c2adder.program ∧
    RegAction.addApi "registerWidget" 0 ∈ c2adder.program ∧
    (∀ c ∈ (registerAll [c2user, c2adder] ["api"]).initCalls,
      c.extension = "user" → c.optional = false →
        c.key = "registerWidget") ∧
    (extIncompatible (registerAll [c2user, c2adder] ["api"]) [] "user"
        = false ∧
      ∀ c ∈ (registerAll [c2user, c2adder] ["api"]).initCalls,
        c.extension = "user" →
          c ∈ (initExtensions [c2user, c2adder] [] ["api"]).initCalls) :=
  ⟨by decide, by decide, by decide, by decide,
   two_pass_forward_refs [c2user, c2adder] ["api"] [] c2adder "user"
     "registerWidget" 0 (by decide) (by decide) (by decide) (by decide)⟩

/-- C6. Registration failure containment: an extension whose registration
function performs the actions p1, then throws, then would perform p2,
leaves the whole phase-1 result exactly as if its registration function
had been just p1 — everything it recorded before the throw is kept (no
rollback) and every extension after it still runs its registration
function unchanged. -/
theorem registration_throw_contained (pre post : List Extension)
    (n pa : String) (p1 p2 : List RegAction) (ck : List String)
    (hth : RegAction.throwErr ∉ p1) :
    registerAll (pre ++ ⟨n, pa, p1 ++ RegAction.throwErr :: p2⟩ :: post) ck
      = registerAll (pre ++ ⟨n, pa, p1⟩ :: post) ck := by
  unfold registerAll
  rw [List.foldl_append, List.foldl_append, List.foldl_cons, List.foldl_cons]
  have hstep : regStep (List.foldl regStep (initialState ck) pre)
      ⟨n, pa, p1 ++ RegAction.throwErr :: p2⟩
      = regStep (List.foldl regStep (initialState ck) pre) ⟨n, pa, p1⟩ := by
    unfold regStep
    exact runActions_throw p1 p2 _ hth
  rw [hstep]

/-- Extension used in the C6 witness: loaded after the throwing one. -/
def c6next : Extension :=
  ⟨"next", "pn", [RegAction.call "registerTest" ["z"]]⟩

/-- C6 witness: an extension that records one call and then throws behaves
exactly like the extension truncated at the throw; the following extension
still registers. -/
theorem registration_throw_contained_witness :
    RegAction.throwErr ∉ [RegAction.call "registerAction" ["x"]] ∧
    registerAll
        [⟨"boom", "pb",
          [RegAction.call "registerAction" ["x"], RegAction.throwErr,
           RegAction.call "registerTest" ["y"]]⟩, c6next] ["api"]
      = registerAll
          [⟨"boom", "pb", [RegAction.call "registerAction" ["x"]]⟩, c6next]
          ["api"] :=
  ⟨by decide,
   registration_throw_contained [] [c6next] "boom" "pb"
     [RegAction.call "registerAction" ["x"]]
     [RegAction.call "registerTest" ["y"]] ["api"] (by decide)⟩

/-- C7. Resource rotation ordering: when an instance exists and the stored
context differs from the requested one, getModDB closes the existing
instance strictly before constructing the one for the new context, and the
final broker state records the new instance and the new context as
current; the caller receives the new instance. -/
theorem broker_rotation_order (s : BrokerState) (g k : String)
    (fr inst : Nat) (hex : s.modDB = some inst)
    (hdiff : g ≠ s.modDBGame ∨ k ≠ s.modDBAPIKey) :
    (getModDB s g k fr).trace
      = [BrokerEvent.close inst, BrokerEvent.construct fr g k] ∧
    (getModDB s g k fr).state = ⟨some fr, g, k⟩ ∧
    (getModDB s g k fr).instResult = fr := by
  have hcond : s.modDB = none ∨ g ≠ s.modDBGame ∨ k ≠ s.modDBAPIKey :=
    Or.inr hdiff
  simp only [getModDB]
  rw [if_pos hcond, hex]
  simp

/-- C7 witness: rotating from game gameA to gameB with the same key closes
instance 1 before constructing instance 2 and records the new context. -/
theorem broker_rotation_order_witness :
    (⟨some 1, "gameA", "key1"⟩ : BrokerState).modDB = some 1 ∧
    ("gameB" ≠ (⟨some 1, "gameA", "key1"⟩ : BrokerState).modDBGame ∨
     "key1" ≠ (⟨some 1, "gameA", "key1"⟩ : BrokerState).modDBAPIKey) ∧
    ((getModDB ⟨some 1, "gameA", "key1"⟩ "gameB" "key1" 2).trace
        = [BrokerEvent.close 1, BrokerEvent.construct 2 "gameB" "key1"] ∧
     (getModDB ⟨some 1, "gameA", "key1"⟩ "gameB" "key1" 2).state
        = ⟨some 2, "gameB", "key1"⟩ ∧
     (getModDB ⟨some 1, "gameA", "key1"⟩ "gameB" "key1" 2).instResult = 2) :=
  ⟨rfl, Or.inl (by decide),
   broker_rotation_order ⟨some 1, "gameA", "key1"⟩ "gameB" "key1" 2 1 rfl
     (Or.inl (by decide))⟩

/-- C8. Change watcher fan-out and dedup: watching the same path twice with
two callbacks creates exactly one underlying subscription; both callbacks
are registered in order under the path's key; a genuine change invokes both
callbacks in registration order, with a throwing callback logged and not
preventing the other from running; and a second notification carrying the
same value as the last observed one invokes no callback at all. -/
theorem watcher_fanout_dedup (w : WatcherState) (p : List String)
    (cb1 cb2 : WatchCallback) (v : Option String)
    (hfresh : lookupA w.watches (watchKey p) = none)
    (hv : v ≠ none) :
    (watch (watch w p cb1) p cb2).subscriptions
      = w.subscriptions ++ [watchKey p] ∧
    lookupA (watch (watch w p cb1) p cb2).watches (watchKey p)
      = some [cb1, cb2] ∧
    (notify (watch (watch w p cb1) p cb2) (watchKey p) v).invoked
      = [cb1.id, cb2.id] ∧
    (notify (watch (watch w p cb1) p cb2) (watchKey p) v).errLogged
      = (if cb1.throws then [cb1.id] else []) ++
        (if cb2.throws then [cb2.id] else []) ∧
    (notify (notify (watch (watch w p cb1) p cb2) (watchKey p) v).state
        (watchKey p) v).invoked = [] := by
  by_cases hb1 : cb1.throws <;> by_cases hb2 : cb2.throws <;>
    simp [watch, notify, hfresh, lookupA_updateA_self, runCallbacks, hv,
      hb1, hb2]

/-- C8 witness: two callbacks on path a.b share one subscription; on the
first genuine value both run in order with the first one's exception
logged; repeating the same value fires nothing. -/
theorem watcher_fanout_dedup_witness :
    lookupA (⟨[], [], []⟩ : WatcherState).watches (watchKey ["a", "b"])
      = none ∧
    (some "x" : Option String) ≠ none ∧
    ((watch (watch ⟨[], [], []⟩ ["a", "b"] ⟨1, true⟩) ["a", "b"]
        ⟨2, false⟩).subscriptions = [] ++ [watchKey ["a", "b"]] ∧
     lookupA (watch (watch ⟨[], [], []⟩ ["a", "b"] ⟨1, true⟩) ["a", "b"]
        ⟨2, false⟩).watches (watchKey ["a", "b"]) = some [⟨1, true⟩, ⟨2, false⟩] ∧
     (notify (watch (watch ⟨[], [], []⟩ ["a", "b"] ⟨1, true⟩) ["a", "b"]
        ⟨2, false⟩) (watchKey ["a", "b"]) (some "x")).invoked = [1, 2] ∧
     (notify (watch (watch ⟨[], [], []⟩ ["a", "b"] ⟨1, true⟩) ["a", "b"]
        ⟨2, false⟩) (watchKey ["a", "b"]) (some "x")).errLogged
       = (if (true : Bool) then [1] else []) ++
         (if (false : Bool) then [2] else []) ∧
     (notify (notify (watch (watch ⟨[], [], []⟩ ["a", "b"] ⟨1, true⟩)
        ["a", "b"] ⟨2, false⟩) (watchKey ["a", "b"]) (some "x")).state
        (watchKey ["a", "b"]) (some "x")).invoked = []) :=
  ⟨by decide, by decide,
   watcher_fanout_dedup ⟨[], [], []⟩ ["a", "b"] ⟨1, true⟩ ⟨2, false⟩
     (some "x") (by decide) (by decide)⟩

/-- C9. Addition replay argument shape: the sequence of handler invocations
produced by invokeAdditions on the filtered state is exactly, for each
collected addition in order, one invocation per surviving recorded call to
the addition's key (in log order), carrying the call's recorded arguments
followed by the calling extension's path as the final argument. -/
theorem invokeAdditions_replay_shape (s0 : HandlerState) (f : List String) :
    invokeAdditions (unloadIncompatible s0 f)
      = (unloadIncompatible s0 f).apiAdditions.flatMap (fun a =>
          (getCalls (unloadIncompatible s0 f) a.key).map (fun c =>
            (⟨a.callback, c.arguments ++ [c.extensionPath]⟩ : Invocation))) :=
  invokeAdditions_eq (unloadIncompatible s0 f)

/-- C10. The has trap of the recorder proxy returns true for every property
key, so an in-based membership test reports every name as present and
cannot distinguish supported from unsupported capabilities. -/
theorem has_trap_always_true : ∀ key : String, hasTrap key = true :=
  fun _ => rfl

end Vortex
